import Mathlib

/-
Verification of python-async-firmata against its specification.

The decoders (`SerialIO.data_received` in board.py, `Protocol.data_received`
in protocol.py), the pin operations (pin.py) and the handshake handlers
(board.py) are shallowly embedded as pure Lean functions below.  Python
byte strings become `List Nat`, Python exceptions become an explicit
`PyErr` result, and each handler dispatch becomes an `Event` value in
emission order.
-/

namespace AsyncFirmata

/-- Modelled from the spec: `const.py` is not under `src/`.  Standard
Firmata start-of-sysex marker (the spec's "start marker"). -/
def START_SYSEX : Nat := 0xF0

/-- Modelled from the spec: sysex end marker from the missing `const.py`. -/
def SYSEX_END : Nat := 0xF7

/-- Modelled from the spec: the terminator/sentinel byte (`SYSEX_REALTIME`)
used between pins in the capability response and in the analog mapping. -/
def SYSEX_REALTIME : Nat := 0x7F

/-- Modelled from the spec: analog direct-message class byte. -/
def ANALOG_MESSAGE : Nat := 0xE0

/-- Modelled from the spec: digital direct-message class byte. -/
def DIGITAL_MESSAGE : Nat := 0x90

/-- Modelled from the spec: set-pin-mode command byte. -/
def SET_PIN_MODE : Nat := 0xF4

/-- Modelled from the spec: set-digital-pin-value command byte. -/
def SET_DIGITAL_PIN_VALUE : Nat := 0xF5

/-- Modelled from the spec: capability code for digital output. -/
def CAPABILITY_DIGITAL_OUTPUT : Nat := 0x01

/-- Modelled from the spec: capability code for analog (PWM) output. -/
def CAPABILITY_ANALOG_OUTPUT : Nat := 0x03

/-- Modelled from the spec: `PWM` mode code from the missing `const.py`;
the same Firmata mode code as the analog-output capability. -/
def PWM : Nat := 0x03

/-- Python exceptions that the embedded code can raise. -/
inductive PyErr where
  | capabilityNotAvailable
  | indexError
  | valueError
  | keyError
deriving DecidableEq, Repr

/-- One dispatch performed by a decoder.  `analog`/`digital` carry the
combined 14-bit value (board.py combines `msb <<< 7 ||| lsb` before
dispatch); `analogRaw`/`digitalRaw` carry the two raw bytes (protocol.py
dispatches `data[1]`, `data[2]` uncombined). -/
inductive Event where
  | analog (pin value : Nat)
  | digital (pin value : Nat)
  | analogRaw (pin lsb msb : Nat)
  | digitalRaw (pin lsb msb : Nat)
  | sysex (command : Nat) (payload : List Nat)
deriving DecidableEq, Repr

/-- Embedding of Python `del buffer[:buffer.index(m)+1]`: drop everything
up to and including the first occurrence of `m` (identity when `m` is
absent, but the callers only use it when `m` is present). -/
def dropThrough (m : Nat) : List Nat → List Nat
  | [] => []
  | x :: xs => if x = m then xs else dropThrough m xs

/-- Embedding of Python `buffer[:buffer.index(m)]`: the prefix strictly
before the first occurrence of `m`. -/
def takeUntil (m : Nat) : List Nat → List Nat
  | [] => []
  | x :: xs => if x = m then [] else x :: takeUntil m xs

/-- The sysex draining loop shared (textually identical up to naming) by
`SerialIO.data_received` (board.py lines 62-67) and
`Protocol.data_received` (protocol.py lines 47-52):
while both markers are in the buffer, delete through the first start
marker, take bytes up to the first end marker as the message, delete
through that end marker, and dispatch `(message[0], message[1:])`.
`buffer.index(SYSEX_END)` raises `ValueError` when no end marker remains
after the start marker was deleted, and taking `message[0]` (board.py:
`sysex_message.pop(0)`) raises `IndexError` on an empty message. -/
def sysexLoop (buf : List Nat) : Except PyErr (List Event × List Nat) :=
  if h : SYSEX_END ∈ buf ∧ START_SYSEX ∈ buf then
    if h2 : SYSEX_END ∈ dropThrough START_SYSEX buf then
      match takeUntil SYSEX_END (dropThrough START_SYSEX buf) with
      | [] => .error .indexError
      | cmd :: rest =>
        match sysexLoop (dropThrough SYSEX_END (dropThrough START_SYSEX buf)) with
        | .ok (evs, r) => .ok (Event.sysex cmd rest :: evs, r)
        | .error e => .error e
    else .error .valueError
  else .ok ([], buf)
termination_by buf.length
decreasing_by
  have key : ∀ (m : Nat) (l : List Nat), m ∈ l → (dropThrough m l).length < l.length := by
    intro m l hm
    induction l with
    | nil => cases hm
    | cons x xs ih =>
      by_cases hx : x = m
      · simp [dropThrough, hx]
      · rcases List.mem_cons.mp hm with h1 | h1
        · exact absurd h1.symm hx
        · simpa [dropThrough, hx] using Nat.lt_trans (ih h1) (Nat.lt_succ_self _)
  exact Nat.lt_trans (key _ _ h2) (key _ _ h.2)

/-- Embedding of `SerialIO.data_received` (board.py lines 45-67).  The
state is the accumulated buffer plus whether `board._ready` is set.  The
incoming packet is appended to the buffer; if the first buffered byte is
below the sysex start marker, at least 3 bytes are buffered and the board
is ready, one direct message is popped: on an analog or digital class the
handler is dispatched and the method returns at once; on any other class
the three popped bytes are dropped and control falls through to the sysex
loop.  Otherwise the sysex loop runs on the whole buffer.  Reading
`self._buffer[0]` on an empty buffer raises `IndexError`. -/
def serialIO_data_received (ready : Bool) (buffer packet : List Nat) :
    Except PyErr (List Event × List Nat) :=
  match buffer ++ packet with
  | [] => .error .indexError
  | b0 :: rest =>
    if b0 < START_SYSEX ∧ (b0 :: rest).length ≥ 3 ∧ ready then
      match rest with
      | lsb :: msb :: rest2 =>
        if b0 &&& 0xF0 = ANALOG_MESSAGE then
          .ok ([Event.analog (b0 &&& 0x0F) (msb <<< 7 ||| lsb)], rest2)
        else if b0 &&& 0xF0 = DIGITAL_MESSAGE then
          .ok ([Event.digital (b0 &&& 0x0F) (msb <<< 7 ||| lsb)], rest2)
        else sysexLoop rest2
      | _ => sysexLoop (b0 :: rest)
    else sysexLoop (b0 :: rest)

/-- Feeding a list of delivery chunks to `SerialIO.data_received` in
order, starting from a given buffer, concatenating the dispatched events. -/
def serialFeed (ready : Bool) : List Nat → List (List Nat) → Except PyErr (List Event × List Nat)
  | buf, [] => .ok ([], buf)
  | buf, c :: cs =>
    match serialIO_data_received ready buf c with
    | .ok (evs, buf2) =>
      match serialFeed ready buf2 cs with
      | .ok (evs2, r) => .ok (evs ++ evs2, r)
      | .error e => .error e
    | .error e => .error e

/-- Embedding of the direct-message loop of `Protocol.data_received`
(protocol.py lines 32-45): `while data:` examine the chunk's head byte's
high nibble; on an analog or digital class dispatch
`(data[0] &&& 0x0F, data[1], data[2])` and continue with `data[3:]`; on
any other class break.  Indexing `data[1]` or `data[2]` past the end of
the chunk raises `IndexError`. -/
def protocolDirect : List Nat → Except PyErr (List Event)
  | [] => .ok []
  | d0 :: rest =>
    if d0 &&& 0xF0 = ANALOG_MESSAGE then
      match rest with
      | b1 :: b2 :: rest2 =>
        match protocolDirect rest2 with
        | .ok evs => .ok (Event.analogRaw (d0 &&& 0x0F) b1 b2 :: evs)
        | .error e => .error e
      | _ => .error .indexError
    else if d0 &&& 0xF0 = DIGITAL_MESSAGE then
      match rest with
      | b1 :: b2 :: rest2 =>
        match protocolDirect rest2 with
        | .ok evs => .ok (Event.digitalRaw (d0 &&& 0x0F) b1 b2 :: evs)
        | .error e => .error e
      | _ => .error .indexError
    else .ok []

/-- Embedding of `Protocol.data_received` (protocol.py lines 26-52): the
chunk is appended to the buffer; if the chunk's first byte is below the
sysex start marker, the direct loop runs on the chunk (its bytes are never
removed from the buffer); then the sysex loop runs on the buffer.
`data[0]` on an empty chunk raises `IndexError`. -/
def protocol_data_received (buffer packet : List Nat) :
    Except PyErr (List Event × List Nat) :=
  match packet with
  | [] => .error .indexError
  | d0 :: _ =>
    if d0 < START_SYSEX then
      match protocolDirect packet with
      | .ok devs =>
        match sysexLoop (buffer ++ packet) with
        | .ok (evs, r) => .ok (devs ++ evs, r)
        | .error e => .error e
      | .error e => .error e
    else
      match sysexLoop (buffer ++ packet) with
      | .ok (evs, r) => .ok (evs, r)
      | .error e => .error e

/-- Modelled from the spec: sysex command code for string/error messages
(missing `const.py`). -/
def SYSEX_STRING : Nat := 0x71

/-- Modelled from the spec: sysex command code for pin state responses. -/
def PIN_STATE_RESPONSE : Nat := 0x6E

/-- Modelled from the spec: sysex command code for firmware info. -/
def SYSEX_FIRMWARE_INFO : Nat := 0x79

/-- Modelled from the spec: sysex command code for capability responses. -/
def CAPABILITY_RESPONSE : Nat := 0x6C

/-- Modelled from the spec: sysex command code for analog mapping responses. -/
def ANALOG_MAPPING_RESPONSE : Nat := 0x6A

/-- Modelled from the spec: the `ANALOG` pin-kind tag (missing `const.py`). -/
def ANALOG : String := "analog"

/-- Modelled from the spec: the `DIGITAL` pin-kind tag (missing `const.py`). -/
def DIGITAL : String := "digital"

/-- Kind of a pin, the `type` field of pin.py's `Pin` as the typed design
intends it. -/
inductive PinType where
  | analog
  | digital
deriving DecidableEq, Repr

/-- Typed embedding of pin.py's `Pin` for the pin-operation claims: the
capability map is an association list from mode code to resolution (the
spec's "per-pin mapping from mode code to resolution-in-bits"; Python
membership `mode in self.capabilities` is key membership and
`self.capabilities[k]` is key lookup).  `hasCallback` records whether a
change callback is registered; `value` holds Python's numeric value
(Python booleans compare equal to 0/1). -/
structure Pin where
  id : Nat
  type : PinType
  capabilities : List (Nat × Nat)
  mode : Option Nat
  value : ℚ
  hasCallback : Bool
deriving DecidableEq, Repr

/-- Result of one pin operation: the exception raised (if any), the pin
state after the call, and the packets written to the transport, in order.
When an exception is raised before any send or assignment the pin is
unchanged and `sent` is empty. -/
structure Effect where
  err : Option PyErr
  pin : Pin
  sent : List (List ℤ)
deriving DecidableEq, Repr

/-- Embedding of the `Pin.value` setter (pin.py lines 88-101): record the
old value, store the new one, and invoke the callback only when one is
registered and the old value differs from the newly stored one.  Returns
the updated pin and whether the callback was invoked. -/
def set_value (p : Pin) (v : ℚ) : Pin × Bool :=
  ({ p with value := v }, p.hasCallback && !decide (p.value = v))

/-- Embedding of Python 3 `round` on rationals: nearest integer, ties to
even. -/
def pythonRound (q : ℚ) : ℤ :=
  if q - (⌊q⌋ : ℚ) < 1/2 then ⌊q⌋
  else if 1/2 < q - (⌊q⌋ : ℚ) then ⌊q⌋ + 1
  else if ⌊q⌋ % 2 = 0 then ⌊q⌋ else ⌊q⌋ + 1

/-- Embedding of `Pin.pin_mode` (pin.py lines 56-68): raise
`CapabilityNotAvailable` when the mode is not a key of the capability
map; otherwise send `[SET_PIN_MODE, pin_number, mode]`, where
`pin_number` is the id for non-analog pins and the digital pin count plus
the id for analog pins, then set the local mode. -/
def pin_mode (digitalCount : Nat) (p : Pin) (mode : Nat) : Effect :=
  if (p.capabilities.lookup mode).isNone then
    { err := some .capabilityNotAvailable, pin := p, sent := [] }
  else
    { err := none
      pin := { p with mode := some mode }
      sent := [[(SET_PIN_MODE : ℤ),
                ((if ¬ p.type = PinType.analog then p.id else digitalCount + p.id : ℕ) : ℤ),
                (mode : ℤ)]] }

/-- Embedding of `Pin.analog_write` (pin.py lines 41-54): raise
`CapabilityNotAvailable` unless `PWM` is a key of the capability map; read
the resolution at key `CAPABILITY_ANALOG_OUTPUT` (a `KeyError` if absent),
quantize `value` to it with Python `round`, send
`[ANALOG_MESSAGE + id, converted % 128, converted >> 7]` and then store
`value` through the value setter.  Python `%` and `>>` on ints are
`Int.fmod` and floor division by 128 (`Int.fdiv`). -/
def analog_write (p : Pin) (value : ℚ) : Effect :=
  if (p.capabilities.lookup PWM).isSome then
    match p.capabilities.lookup CAPABILITY_ANALOG_OUTPUT with
    | none => { err := some .keyError, pin := p, sent := [] }
    | some res =>
      { err := none
        pin := (set_value p value).1
        sent := [[(ANALOG_MESSAGE : ℤ) + (p.id : ℤ),
                  (pythonRound (value * ((2 ^ res : ℚ) - 1))).fmod 128,
                  (pythonRound (value * ((2 ^ res : ℚ) - 1))).fdiv 128]] }
  else { err := some .capabilityNotAvailable, pin := p, sent := [] }

/-- Embedding of `Pin.digital_write` (pin.py lines 29-39): with the
digital-output capability, store the value and send
`[SET_DIGITAL_PIN_VALUE, id, value]`; otherwise with the analog-output
capability, call `analog_write(1)`; otherwise raise
`CapabilityNotAvailable`. -/
def digital_write (p : Pin) (value : Bool) : Effect :=
  if (p.capabilities.lookup CAPABILITY_DIGITAL_OUTPUT).isSome then
    { err := none
      pin := (set_value p (if value then 1 else 0)).1
      sent := [[(SET_DIGITAL_PIN_VALUE : ℤ), (p.id : ℤ), if value then 1 else 0]] }
  else if (p.capabilities.lookup CAPABILITY_ANALOG_OUTPUT).isSome then
    analog_write p 1
  else { err := some .capabilityNotAvailable, pin := p, sent := [] }

/-- Whether a stored pin mode is an output mode (digital output or PWM). -/
def isOutputMode : Option Nat → Bool
  | some m => m == CAPABILITY_DIGITAL_OUTPUT || m == PWM
  | none => false

/-- Modelled from the spec: `Pin._update_digital`, invoked by
`Board.handle_digital_message` (board.py line 167), is code of this
repository that is not under `src/`.  Per the spec, a port-level digital
message "unpacks an 8-bit mask and updates up to 8 pins individually,
skipping any pin configured as output": pin `port*8 + i` of the digital
list is set, through the value setter, to bit `i` of the mask unless its
current mode is an output mode. -/
def update_digital_port (pins : List Pin) (port mask : Nat) : List Pin :=
  pins.mapIdx fun i p =>
    if port * 8 ≤ i ∧ i < port * 8 + 8 ∧ ¬ isOutputMode p.mode then
      (set_value p (if mask.testBit (i - port * 8) then 1 else 0)).1
    else p

/-- Embedding of `Board.handle_digital_message` (board.py lines 165-167)
composed with the spec-modelled port update: the handler runs only when
the port index passes the bound check against the digital pin list. -/
def handle_digital_message (digital : List Pin) (port value : Nat) : List Pin :=
  if port < digital.length then update_digital_port digital port value else digital

/-- A dynamically-typed Python value, for the constructor-call embedding. -/
inductive PyVal where
  | intV (n : Nat)
  | strV (s : String)
  | listV (l : List Nat)
deriving DecidableEq, Repr

/-- Dynamically-typed embedding of a pin as `Pin.__init__` actually
constructs it: the fields hold whatever values the caller passed. -/
structure RawPin where
  id : PyVal
  type : PyVal
  capabilities : PyVal
  mode : Option Nat
  value : Nat
deriving DecidableEq, Repr

/-- Embedding of `Pin.__init__` (pin.py lines 13-23): each positional
parameter `(id, type, capabilities)` is stored in the field of the same
name; `_value` starts at 0 and `_mode` unset.  The parameters are kept
dynamically typed, since the call sites in board.py pass arbitrary
values positionally. -/
def mkPin (id type capabilities : PyVal) : RawPin :=
  { id := id, type := type, capabilities := capabilities, mode := none, value := 0 }

/-- Embedding of the accumulation loop of `Board.handle_capability_response`
(board.py lines 189-197): bytes are appended to a scratch buffer; each
terminator byte flushes one copied capability list. -/
def capabilityLoop (buffer : List Nat) : List Nat → List (List Nat)
  | [] => []
  | b :: rest =>
    if b = SYSEX_REALTIME then buffer :: capabilityLoop [] rest
    else capabilityLoop (buffer ++ [b]) rest

/-- Embedding of `Board.handle_capability_response`: appends the
accumulated per-pin capability lists to `_pin_specs`. -/
def handle_capability_response (pin_specs : List (List Nat)) (data : List Nat) :
    List (List Nat) :=
  pin_specs ++ capabilityLoop [] data

/-- Embedding of the loop of `Board.handle_analog_mapping_response`
(board.py lines 205-213).  For each `(index, value)` of the payload the
source executes `Pin(self, self._pin_specs[index], value, ANALOG)` (when
the value is not the terminator) or `Pin(self, self._pin_specs[index],
index, DIGITAL)` (when it is), appending to the analog resp. digital
list; the embedding passes the constructor arguments exactly as the call
site does, positionally.  Indexing `_pin_specs` out of range raises. -/
def analogMappingLoop (pin_specs : List (List Nat)) (index : Nat) :
    List Nat → Except PyErr (List RawPin × List RawPin)
  | [] => .ok ([], [])
  | v :: rest =>
    match pin_specs[index]? with
    | none => .error .indexError
    | some spec =>
      match analogMappingLoop pin_specs (index + 1) rest with
      | .ok (ana, dig) =>
        if ¬ v = SYSEX_REALTIME then
          .ok (mkPin (.listV spec) (.intV v) (.strV ANALOG) :: ana, dig)
        else
          .ok (ana, mkPin (.listV spec) (.intV index) (.strV DIGITAL) :: dig)
      | .error e => .error e

/-- Embedding of `Board.handle_analog_mapping_response`: resets the analog
and digital lists and runs the enumeration loop from index 0. -/
def handle_analog_mapping_response (pin_specs : List (List Nat)) (data : List Nat) :
    Except PyErr (List RawPin × List RawPin) :=
  analogMappingLoop pin_specs 0 data

/-- Connection-lifecycle state for the reconnection claim: the handler
registry as a list of (command code, handler identity) pairs, a counter
producing fresh identities for the `set_event` wrapper closures, and
counters of completed setup runs and of transitions to ready. -/
structure BoardState where
  handlers : List (Nat × Nat)
  nextWrapperId : Nat
  setupRuns : Nat
  readyCount : Nat
  readySet : Bool
deriving DecidableEq, Repr

/-- Embedding of `Board.add_command_handler` (board.py lines 215-216): the
registry maps each command code to a `set` of handlers, so adding an
already present handler is a no-op. -/
def add_command_handler (s : BoardState) (command handlerId : Nat) : BoardState :=
  if (command, handlerId) ∈ s.handlers then s
  else { s with handlers := s.handlers ++ [(command, handlerId)] }

/-- Embedding of one successful `SerialBoard.setup` run (board.py lines
244-247 then 111-122): `super().__init__` replaces the handler registry
with a fresh empty one and the ready event with a fresh unset one; then
`Board.setup` registers the four bound-method handlers (stable identities
0-3, since equal bound methods collapse in a Python set), the three
handshake steps each register a freshly created `set_event` wrapper
closure (a fresh identity, offset past the stable ones), and finally the
ready event is set and `on_ready` scheduled, exactly once per run. -/
def runSetup (s : BoardState) : BoardState :=
  let s0 : BoardState :=
    { handlers := [], nextWrapperId := s.nextWrapperId,
      setupRuns := s.setupRuns, readyCount := s.readyCount, readySet := false }
  let s1 := add_command_handler s0 SYSEX_STRING 0
  let s2 := add_command_handler s1 PIN_STATE_RESPONSE 1
  let s3 := add_command_handler s2 ANALOG_MESSAGE 2
  let s4 := add_command_handler s3 DIGITAL_MESSAGE 3
  let s5 := add_command_handler s4 SYSEX_FIRMWARE_INFO (4 + s.nextWrapperId)
  let s6 := add_command_handler s5 CAPABILITY_RESPONSE (4 + s.nextWrapperId + 1)
  let s7 := add_command_handler s6 ANALOG_MAPPING_RESPONSE (4 + s.nextWrapperId + 2)
  { handlers := s7.handlers, nextWrapperId := s.nextWrapperId + 3,
    setupRuns := s.setupRuns + 1, readyCount := s.readyCount + 1, readySet := true }

/-- Embedding of `SerialBoard.connection_lost` (board.py lines 249-257)
for a disconnect followed by one successful reconnect: with the revive
policy the loop waits, retries `setup` until one attempt succeeds, and
breaks; a failing attempt raises inside `create_serial_connection` before
any board state is touched, so the episode amounts to exactly one
successful setup run.  Without the policy nothing happens. -/
def connection_lost (revive : Bool) (s : BoardState) : BoardState :=
  if revive then runSetup s else s

/-- A digital pin advertising only the analog-output (PWM) capability at
resolution 8, used to instantiate the pin-operation theorems. -/
def pinNoDigitalOut : Pin :=
  { id := 5, type := PinType.digital, capabilities := [(3, 8)],
    mode := none, value := 0, hasCallback := false }

/-- A pin with an empty capability map. -/
def pinNoOutputs : Pin :=
  { id := 6, type := PinType.digital, capabilities := [],
    mode := none, value := 0, hasCallback := false }

/-- An analog pin advertising one capability (mode 4 at resolution 14),
currently in mode 7. -/
def pinAnalogKind : Pin :=
  { id := 2, type := PinType.analog, capabilities := [(4, 14)],
    mode := some 7, value := 0, hasCallback := false }

/-- A pin with a registered change callback. -/
def pinWithCallback : Pin :=
  { id := 0, type := PinType.digital, capabilities := [],
    mode := none, value := 0, hasCallback := true }

/-- A digital pin in input mode (mode code 0) with a given value. -/
def inputPinAt (i : Nat) (v : ℚ) : Pin :=
  { id := i, type := PinType.digital, capabilities := [(0, 1)],
    mode := some 0, value := v, hasCallback := false }

/-- A digital pin in output mode (mode code 1) with a given value. -/
def outputPinAt (i : Nat) (v : ℚ) : Pin :=
  { id := i, type := PinType.digital, capabilities := [(0, 1), (1, 1)],
    mode := some 1, value := v, hasCallback := false }

theorem dropThrough_append {m : Nat} {l : List Nat} (c : List Nat) (h : m ∈ l) :
    dropThrough m (l ++ c) = dropThrough m l ++ c := by
  induction l with
  | nil => cases h
  | cons x xs ih =>
    by_cases hx : x = m
    · simp [dropThrough, hx]
    · have h1 : m ∈ xs := by
        rcases List.mem_cons.mp h with h1 | h1
        · exact absurd h1.symm hx
        · exact h1
      simp [dropThrough, hx, ih h1]

theorem takeUntil_append {m : Nat} {l : List Nat} (c : List Nat) (h : m ∈ l) :
    takeUntil m (l ++ c) = takeUntil m l := by
  induction l with
  | nil => cases h
  | cons x xs ih =>
    by_cases hx : x = m
    · simp [takeUntil, hx]
    · have h1 : m ∈ xs := by
        rcases List.mem_cons.mp h with h1 | h1
        · exact absurd h1.symm hx
        · exact h1
      simp [takeUntil, hx, ih h1]

theorem sysexLoop_of_not {buf : List Nat}
    (h : ¬(SYSEX_END ∈ buf ∧ START_SYSEX ∈ buf)) :
    sysexLoop buf = .ok ([], buf) := by
  rw [sysexLoop]
  simp [h]

theorem sysexLoop_of_empty_msg {buf : List Nat}
    (hc : SYSEX_END ∈ buf ∧ START_SYSEX ∈ buf)
    (h2 : SYSEX_END ∈ dropThrough START_SYSEX buf)
    (hm : takeUntil SYSEX_END (dropThrough START_SYSEX buf) = []) :
    sysexLoop buf = .error .indexError := by
  rw [sysexLoop]
  simp [hc, h2, hm]

theorem sysexLoop_of_no_end {buf : List Nat}
    (hc : SYSEX_END ∈ buf ∧ START_SYSEX ∈ buf)
    (h2 : SYSEX_END ∉ dropThrough START_SYSEX buf) :
    sysexLoop buf = .error .valueError := by
  rw [sysexLoop]
  simp [hc, h2]

theorem sysexLoop_of_cons {buf : List Nat}
    (hc : SYSEX_END ∈ buf ∧ START_SYSEX ∈ buf)
    (h2 : SYSEX_END ∈ dropThrough START_SYSEX buf)
    {cmd : Nat} {rest : List Nat}
    (hm : takeUntil SYSEX_END (dropThrough START_SYSEX buf) = cmd :: rest) :
    sysexLoop buf =
      match sysexLoop (dropThrough SYSEX_END (dropThrough START_SYSEX buf)) with
      | .ok (evs, r) => .ok (Event.sysex cmd rest :: evs, r)
      | .error e => .error e := by
  rw [sysexLoop]
  simp [hc, h2, hm]

theorem sysexLoop_quiescent :
    ∀ (buf : List Nat), ∀ {evs : List Event} {r : List Nat},
    sysexLoop buf = .ok (evs, r) → ¬(SYSEX_END ∈ r ∧ START_SYSEX ∈ r) := by
  intro buf
  induction buf using sysexLoop.induct with
  | case1 x hc h2 hm =>
    intro evs r h
    rw [sysexLoop_of_empty_msg hc h2 hm] at h
    cases h
  | case2 x hc h2 cmd xs hm evs0 r0 hrec ih =>
    intro evs r h
    rw [sysexLoop_of_cons hc h2 hm, hrec] at h
    cases h
    exact ih hrec
  | case3 x hc h2 cmd xs hm e hrec ih =>
    intro evs r h
    rw [sysexLoop_of_cons hc h2 hm, hrec] at h
    cases h
  | case4 x hc h2 =>
    intro evs r h
    rw [sysexLoop_of_no_end hc h2] at h
    cases h
  | case5 x hc =>
    intro evs r h
    rw [sysexLoop_of_not hc] at h
    cases h
    exact hc

theorem sysexLoop_append :
    ∀ (b : List Nat), ∀ {c e1 r e2 r2},
    sysexLoop b = .ok (e1, r) → sysexLoop (r ++ c) = .ok (e2, r2) →
    sysexLoop (b ++ c) = .ok (e1 ++ e2, r2) := by
  intro b
  induction b using sysexLoop.induct with
  | case1 x hc h2 hm =>
    intro c e1 r e2 r2 h1 hq
    rw [sysexLoop_of_empty_msg hc h2 hm] at h1
    cases h1
  | case2 x hc h2 cmd xs hm evs0 r0 hrec ih =>
    intro c e1 r e2 r2 h1 hq
    rw [sysexLoop_of_cons hc h2 hm, hrec] at h1
    cases h1
    have hc2 : SYSEX_END ∈ x ++ c ∧ START_SYSEX ∈ x ++ c :=
      ⟨List.mem_append_left c hc.1, List.mem_append_left c hc.2⟩
    have hd1 : dropThrough START_SYSEX (x ++ c) = dropThrough START_SYSEX x ++ c :=
      dropThrough_append c hc.2
    have h2c : SYSEX_END ∈ dropThrough START_SYSEX (x ++ c) := by
      rw [hd1]; exact List.mem_append_left c h2
    have hmc : takeUntil SYSEX_END (dropThrough START_SYSEX (x ++ c)) = cmd :: xs := by
      rw [hd1, takeUntil_append c h2, hm]
    have hd2 : dropThrough SYSEX_END (dropThrough START_SYSEX (x ++ c)) =
        dropThrough SYSEX_END (dropThrough START_SYSEX x) ++ c := by
      rw [hd1, dropThrough_append c h2]
    rw [sysexLoop_of_cons hc2 h2c hmc, hd2, ih hrec hq]
    simp
  | case3 x hc h2 cmd xs hm e hrec ih =>
    intro c e1 r e2 r2 h1 hq
    rw [sysexLoop_of_cons hc h2 hm, hrec] at h1
    cases h1
  | case4 x hc h2 =>
    intro c e1 r e2 r2 h1 hq
    rw [sysexLoop_of_no_end hc h2] at h1
    cases h1
  | case5 x hc =>
    intro c e1 r e2 r2 h1 hq
    rw [sysexLoop_of_not hc] at h1
    cases h1
    simpa using hq

theorem serialIO_not_ready {b c : List Nat} (h : b ++ c ≠ []) :
    serialIO_data_received false b c = sysexLoop (b ++ c) := by
  cases hbc : b ++ c with
  | nil => exact absurd hbc h
  | cons b0 rest => simp [serialIO_data_received, hbc]

theorem serialFeed_join :
    ∀ (chunks : List (List Nat)) (b : List Nat) {evs : List Event} {r : List Nat},
    ¬(SYSEX_END ∈ b ∧ START_SYSEX ∈ b) →
    serialFeed false b chunks = .ok (evs, r) →
    sysexLoop (b ++ chunks.flatten) = .ok (evs, r) := by
  intro chunks
  induction chunks with
  | nil =>
    intro b evs r hq h
    simp only [serialFeed] at h
    cases h
    simpa using sysexLoop_of_not hq
  | cons c cs ih =>
    intro b evs r hq h
    cases hs : serialIO_data_received false b c with
    | error e => simp only [serialFeed, hs] at h; cases h
    | ok pr =>
      obtain ⟨evs1, b2⟩ := pr
      cases ht : serialFeed false b2 cs with
      | error e => simp only [serialFeed, hs, ht] at h; cases h
      | ok pr2 =>
        obtain ⟨evs2, r2⟩ := pr2
        simp only [serialFeed, hs, ht] at h
        obtain ⟨rfl, rfl⟩ := h
        have hbc : b ++ c ≠ [] := by
          intro hemp
          rw [serialIO_data_received, hemp] at hs
          cases hs
        have hs' : sysexLoop (b ++ c) = .ok (evs1, b2) := by
          rw [← serialIO_not_ready hbc]; exact hs
        have hq2 := sysexLoop_quiescent (b ++ c) hs'
        have hrest := ih b2 hq2 ht
        have := sysexLoop_append (b ++ c) hs' hrest
        simpa [List.append_assoc] using this

theorem not_marker_cond_of_subset {l big : List Nat} (hsub : ∀ x, x ∈ l → x ∈ big)
    (hmark : SYSEX_END ∉ big ∨ START_SYSEX ∉ big) :
    ¬(SYSEX_END ∈ l ∧ START_SYSEX ∈ l) := by
  rintro ⟨he, hs⟩
  rcases hmark with hm | hm
  · exact hm (hsub _ he)
  · exact hm (hsub _ hs)

theorem land_90_F0 : (0x90 &&& 0xF0 : Nat) = 0x90 := by decide

theorem land_90_0F : (0x90 &&& 0x0F : Nat) = 0 := by decide

theorem land_E0_F0 : (0xE0 &&& 0xF0 : Nat) = 0xE0 := by decide

theorem land_E0_0F : (0xE0 &&& 0x0F : Nat) = 0 := by decide

theorem shift_0_1 : (0 <<< 7 ||| 1 : Nat) = 1 := by decide

theorem shift_0_2 : (0 <<< 7 ||| 2 : Nat) = 2 := by decide

/-- C1 (counterexample): chunk-boundary invariance fails once the board is
ready.  The chunk `90 01 00 90 02 00` holds two back-to-back digital
direct messages; delivered whole, `SerialIO.data_received` dispatches only
the first and returns, leaving the second buffered, while delivered as two
3-byte chunks it dispatches both. -/
theorem c1_counterexample :
    serialFeed true [] [[0x90, 0x01, 0x00, 0x90, 0x02, 0x00]] =
      .ok ([Event.digital 0 1], [0x90, 0x02, 0x00]) ∧
    serialFeed true [] [[0x90, 0x01, 0x00], [0x90, 0x02, 0x00]] =
      .ok ([Event.digital 0 1, Event.digital 0 2], []) ∧
    ([Event.digital 0 1] : List Event) ≠ [Event.digital 0 1, Event.digital 0 2] := by
  refine ⟨?_, ?_, by decide⟩ <;>
    simp [serialFeed, serialIO_data_received, START_SYSEX, ANALOG_MESSAGE, DIGITAL_MESSAGE,
      land_90_F0, land_90_0F, shift_0_1, shift_0_2]

/-- C1 (amended): before the handshake completes (ready unset) the decoder
is chunk-boundary invariant whenever every delivery step succeeds: feeding
the chunks one by one produces the same ordered dispatches and the same
final buffer as delivering the concatenated byte sequence in one chunk.
With ready set, direct messages break the invariance (see the
counterexample). -/
theorem c1_chunk_invariance_amended
    (chunks : List (List Nat)) (evs evs2 : List Event) (r r2 : List Nat)
    (h1 : serialFeed false [] chunks = .ok (evs, r))
    (h2 : serialIO_data_received false [] chunks.flatten = .ok (evs2, r2)) :
    evs = evs2 ∧ r = r2 := by
  have hq : ¬(SYSEX_END ∈ ([] : List Nat) ∧ START_SYSEX ∈ ([] : List Nat)) := by simp
  have hw := serialFeed_join chunks [] hq h1
  by_cases hj : chunks.flatten = []
  · rw [serialIO_data_received] at h2
    simp only [List.nil_append, hj] at h2
    cases h2
  · have hne : ([] : List Nat) ++ chunks.flatten ≠ [] := by simpa using hj
    rw [serialIO_not_ready hne] at h2
    rw [h2] at hw
    cases hw
    exact ⟨rfl, rfl⟩

/-- C1 (witness): a sysex frame split across two chunks before the
handshake yields the same single dispatch and empty buffer as the whole
delivery. -/
theorem c1_witness :
    serialFeed false [] [[0xF0, 0x05], [0x07, 0xF7]] = .ok ([Event.sysex 5 [7]], []) ∧
    serialIO_data_received false [] [0xF0, 0x05, 0x07, 0xF7] = .ok ([Event.sysex 5 [7]], []) ∧
    ([Event.sysex 5 [7]] : List Event) = [Event.sysex 5 [7]] ∧ ([] : List Nat) = [] := by
  have h1 : serialFeed false [] [[0xF0, 0x05], [0x07, 0xF7]] = .ok ([Event.sysex 5 [7]], []) := by
    simp [serialFeed, serialIO_data_received, sysexLoop, dropThrough, takeUntil,
      START_SYSEX, SYSEX_END]
  have h2 : serialIO_data_received false [] [0xF0, 0x05, 0x07, 0xF7] = .ok ([Event.sysex 5 [7]], []) := by
    simp [serialIO_data_received, sysexLoop, dropThrough, takeUntil, START_SYSEX, SYSEX_END]
  exact ⟨h1, h2, c1_chunk_invariance_amended [[0xF0, 0x05], [0x07, 0xF7]] _ _ _ _ h1 h2⟩

/-- C3 (counterexample): a complete but malformed frame does raise.  The
chunk `F0 F7` (a start marker immediately followed by an end marker)
makes both decoders extract an empty sysex message and then raise an
`IndexError` taking its first byte (`sysex_message.pop(0)` in board.py,
`sysex_message[0]` in protocol.py). -/
theorem c3_counterexample :
    serialIO_data_received false [] [0xF0, 0xF7] = .error .indexError ∧
    protocol_data_received [] [0xF0, 0xF7] = .error .indexError := by
  constructor <;>
    simp [serialIO_data_received, protocol_data_received, sysexLoop, dropThrough,
      takeUntil, START_SYSEX, SYSEX_END]

theorem serialIO_isOk_of_no_frame (ready : Bool) (buffer packet : List Nat)
    (hne : buffer ++ packet ≠ [])
    (hmark : SYSEX_END ∉ buffer ++ packet ∨ START_SYSEX ∉ buffer ++ packet) :
    (serialIO_data_received ready buffer packet).isOk = true := by
  rw [serialIO_data_received]
  split
  · rename_i heq
    exact absurd heq hne
  · rename_i b0 rest heq
    have hsub0 : ∀ x, x ∈ b0 :: rest → x ∈ buffer ++ packet := fun x hx => heq ▸ hx
    split
    · split
      · rename_i lsb msb rest2
        split
        · rfl
        · split
          · rfl
          · rw [sysexLoop_of_not (not_marker_cond_of_subset
              (fun x hx => hsub0 x (List.mem_cons_of_mem _
                (List.mem_cons_of_mem _ (List.mem_cons_of_mem _ hx)))) hmark)]
            rfl
      · rw [sysexLoop_of_not (not_marker_cond_of_subset hsub0 hmark)]
        rfl
    · rw [sysexLoop_of_not (not_marker_cond_of_subset hsub0 hmark)]
      rfl

theorem protocol_isOk_of_no_frame (buffer packet : List Nat) (devs : List Event)
    (hne : packet ≠ [])
    (hmark : SYSEX_END ∉ buffer ++ packet ∨ START_SYSEX ∉ buffer ++ packet)
    (hdir : protocolDirect packet = .ok devs) :
    (protocol_data_received buffer packet).isOk = true := by
  cases packet with
  | nil => exact absurd rfl hne
  | cons d0 rest =>
    have hok : sysexLoop (buffer ++ d0 :: rest) = .ok ([], buffer ++ d0 :: rest) :=
      sysexLoop_of_not (not_marker_cond_of_subset (fun x hx => hx) hmark)
    simp only [protocol_data_received]
    by_cases hd : d0 < START_SYSEX
    · simp only [if_pos hd, hdir, hok]
      rfl
    · simp only [if_neg hd, hok]
      rfl

/-- C3 (amended): a truncated frame is indeed never an error: whenever the
accumulated bytes lack a start marker or lack an end marker, both decoders
return normally, leaving the unconsumed bytes buffered (for protocol.py
provided the chunk's direct-message loop itself completes, i.e. the chunk
does not end in a truncated direct message).  Malformed complete frames,
however, can raise (see the counterexample). -/
theorem c3_truncated_never_raises :
    (∀ (ready : Bool) (buffer packet : List Nat),
        buffer ++ packet ≠ [] →
        (SYSEX_END ∉ buffer ++ packet ∨ START_SYSEX ∉ buffer ++ packet) →
        ∃ evs rest, serialIO_data_received ready buffer packet = .ok (evs, rest)) ∧
    (∀ (buffer packet : List Nat) (devs : List Event),
        packet ≠ [] →
        (SYSEX_END ∉ buffer ++ packet ∨ START_SYSEX ∉ buffer ++ packet) →
        protocolDirect packet = .ok devs →
        ∃ evs rest, protocol_data_received buffer packet = .ok (evs, rest)) := by
  constructor
  · intro ready buffer packet hne hmark
    have h := serialIO_isOk_of_no_frame ready buffer packet hne hmark
    cases hval : serialIO_data_received ready buffer packet with
    | ok pr =>
      obtain ⟨evs, rest⟩ := pr
      exact ⟨evs, rest, rfl⟩
    | error e =>
      rw [hval] at h
      exact Bool.noConfusion h
  · intro buffer packet devs hne hmark hdir
    have h := protocol_isOk_of_no_frame buffer packet devs hne hmark hdir
    cases hval : protocol_data_received buffer packet with
    | ok pr =>
      obtain ⟨evs, rest⟩ := pr
      exact ⟨evs, rest, rfl⟩
    | error e =>
      rw [hval] at h
      exact Bool.noConfusion h

/-- C3 (witness): a start marker with no end marker yet, and a chunk of
one complete direct message, both return normally. -/
theorem c3_witness :
    (∃ evs rest, serialIO_data_received false [] [0xF0, 0x05] = .ok (evs, rest)) ∧
    (∃ evs rest, protocol_data_received [] [0x90, 0x01, 0x00] = .ok (evs, rest)) := by
  constructor
  · exact c3_truncated_never_raises.1 false [] [0xF0, 0x05] (by decide) (Or.inl (by decide))
  · exact c3_truncated_never_raises.2 [] [0x90, 0x01, 0x00] [Event.digitalRaw 0 1 0]
      (by decide) (Or.inl (by decide))
      (by simp [protocolDirect, ANALOG_MESSAGE, DIGITAL_MESSAGE, land_90_F0, land_90_0F])

/-- C6 (counterexample): a single chunk holding two back-to-back direct
messages produces one dispatch from that chunk, not two:
`SerialIO.data_received` has no drain loop and returns after the first
message. -/
theorem c6_counterexample :
    serialIO_data_received true [] [0x90, 0x01, 0x00, 0xE0, 0x05, 0x02] =
      .ok ([Event.digital 0 1], [0xE0, 0x05, 0x02]) ∧
    ([Event.digital 0 1] : List Event).length ≠ 2 := by
  constructor
  · simp [serialIO_data_received, START_SYSEX, ANALOG_MESSAGE, DIGITAL_MESSAGE,
      land_90_F0, land_90_0F, shift_0_1]
  · decide

/-- C6 (amended): after the handshake, `SerialIO.data_received` consumes
at most ONE direct (3-byte) message per received chunk: whenever the
buffered bytes start with a direct-class byte and hold at least 3 bytes,
exactly one dispatch is produced and the entire remainder, including any
further back-to-back direct messages, stays buffered. -/
theorem c6_single_direct_per_chunk
    (buffer packet : List Nat) (b0 lsb msb : Nat) (rest2 : List Nat)
    (hshape : buffer ++ packet = b0 :: lsb :: msb :: rest2)
    (hlow : b0 < START_SYSEX)
    (hclass : b0 &&& 0xF0 = ANALOG_MESSAGE ∨ b0 &&& 0xF0 = DIGITAL_MESSAGE) :
    ∃ ev, serialIO_data_received true buffer packet = .ok ([ev], rest2) := by
  have hcond : b0 < START_SYSEX ∧ (b0 :: lsb :: msb :: rest2).length ≥ 3 ∧ True :=
    ⟨hlow, by simp, trivial⟩
  by_cases ha : b0 &&& 0xF0 = ANALOG_MESSAGE
  · refine ⟨Event.analog (b0 &&& 0x0F) (msb <<< 7 ||| lsb), ?_⟩
    simp only [serialIO_data_received, hshape]
    rw [if_pos hcond, if_pos ha]
  · have hd : b0 &&& 0xF0 = DIGITAL_MESSAGE := hclass.resolve_left ha
    refine ⟨Event.digital (b0 &&& 0x0F) (msb <<< 7 ||| lsb), ?_⟩
    simp only [serialIO_data_received, hshape]
    rw [if_pos hcond, if_neg ha, if_pos hd]

/-- C6 (witness): one analog direct message followed by a stray byte
yields exactly one dispatch with the stray byte left buffered. -/
theorem c6_witness :
    ∃ ev, serialIO_data_received true [] [0xE0, 0x03, 0x01, 0x63] = .ok ([ev], [0x63]) :=
  c6_single_direct_per_chunk [] [0xE0, 0x03, 0x01, 0x63] 0xE0 0x03 0x01 [0x63]
    rfl (by decide) (Or.inl (by decide))

/-- C2: `pin_mode(m)` with `m` absent from the capability map raises
`CapabilityNotAvailable`, leaves the pin (its mode in particular)
unchanged and writes no bytes; with `m` present it sends exactly one
set-pin-mode packet addressed by the pin number and sets the local mode
to `m`. -/
theorem c2_pin_mode_capability_gating (digitalCount : Nat) (p : Pin) (m : Nat) :
    ((p.capabilities.lookup m).isNone = true →
      pin_mode digitalCount p m =
        { err := some .capabilityNotAvailable, pin := p, sent := [] }) ∧
    ((p.capabilities.lookup m).isSome = true →
      pin_mode digitalCount p m =
        { err := none, pin := { p with mode := some m },
          sent := [[(SET_PIN_MODE : ℤ),
                    ((if ¬ p.type = PinType.analog then p.id else digitalCount + p.id : ℕ) : ℤ),
                    (m : ℤ)]] }) := by
  constructor
  · intro h
    rw [pin_mode, if_pos h]
  · intro h
    cases hl : p.capabilities.lookup m with
    | none => rw [hl] at h; exact Bool.noConfusion h
    | some r => rw [pin_mode]; simp [hl]

/-- C2 (witness): for the concrete analog pin, mode 1 is absent (error,
pin unchanged, nothing sent) and mode 4 is present (one set-pin-mode
packet with the analog pin number offset by the digital count). -/
theorem c2_witness :
    pin_mode 10 pinAnalogKind 1 =
      { err := some .capabilityNotAvailable, pin := pinAnalogKind, sent := [] } ∧
    pin_mode 10 pinAnalogKind 4 =
      { err := none, pin := { pinAnalogKind with mode := some 4 },
        sent := [[(SET_PIN_MODE : ℤ),
                  ((if ¬ pinAnalogKind.type = PinType.analog
                    then pinAnalogKind.id else 10 + pinAnalogKind.id : ℕ) : ℤ),
                  ((4 : ℕ) : ℤ)]] } :=
  ⟨(c2_pin_mode_capability_gating 10 pinAnalogKind 1).1 rfl,
   (c2_pin_mode_capability_gating 10 pinAnalogKind 4).2 rfl⟩

theorem pythonRound_sub_abs_le (q : ℚ) : |(pythonRound q : ℚ) - q| ≤ 1 / 2 := by
  have h0 : ((⌊q⌋ : ℤ) : ℚ) ≤ q := Int.floor_le q
  have h1 : q < (⌊q⌋ : ℚ) + 1 := Int.lt_floor_add_one q
  rw [pythonRound]
  split_ifs with ha hb hc
  all_goals rw [abs_le]; push_cast; constructor <;> linarith

/-- C7: on a pin advertising the analog/PWM output capability at
resolution `res`, `analog_write v` emits exactly one
3-byte packet whose class byte is `ANALOG_MESSAGE` offset by the pin id
and whose payload is the 7-bit low/high split of `round(v * (2^res - 1))`,
then stores `v`; recombining the two payload bytes as `lsb + (msb <<< 7)`
reproduces the quantized integer exactly, which lies within half a
quantization step of `v * (2^res - 1)`. -/
theorem c7_analog_write_quantization (p : Pin) (v : ℚ) (res : Nat)
    (hres : p.capabilities.lookup CAPABILITY_ANALOG_OUTPUT = some res) :
    analog_write p v =
      { err := none, pin := { p with value := v },
        sent := [[(ANALOG_MESSAGE : ℤ) + (p.id : ℤ),
                  (pythonRound (v * ((2 ^ res : ℚ) - 1))).fmod 128,
                  (pythonRound (v * ((2 ^ res : ℚ) - 1))).fdiv 128]] } ∧
    (pythonRound (v * ((2 ^ res : ℚ) - 1))).fmod 128 +
        128 * (pythonRound (v * ((2 ^ res : ℚ) - 1))).fdiv 128 =
      pythonRound (v * ((2 ^ res : ℚ) - 1)) ∧
    |(pythonRound (v * ((2 ^ res : ℚ) - 1)) : ℚ) - v * ((2 ^ res : ℚ) - 1)| ≤ 1 / 2 := by
  refine ⟨?_, Int.fmod_add_fdiv _ _, pythonRound_sub_abs_le _⟩
  have hpwm : p.capabilities.lookup PWM = some res := hres
  rw [analog_write]
  simp only [hpwm, hres, Option.isSome_some, if_true, set_value]

/-- C7 (witness): writing 1/2 on the PWM pin of resolution 8: the payload
recombines to the quantized integer and the quantization error is within
half a step (the target 127.5 is a tie, rounded to the even 128). -/
theorem c7_witness :
    (pythonRound ((1/2 : ℚ) * ((2 ^ 8 : ℚ) - 1))).fmod 128 +
        128 * (pythonRound ((1/2 : ℚ) * ((2 ^ 8 : ℚ) - 1))).fdiv 128 =
      pythonRound ((1/2 : ℚ) * ((2 ^ 8 : ℚ) - 1)) ∧
    |(pythonRound ((1/2 : ℚ) * ((2 ^ 8 : ℚ) - 1)) : ℚ) - (1/2 : ℚ) * ((2 ^ 8 : ℚ) - 1)| ≤ 1 / 2 :=
  ⟨(c7_analog_write_quantization pinNoDigitalOut (1/2) 8 rfl).2.1,
   (c7_analog_write_quantization pinNoDigitalOut (1/2) 8 rfl).2.2⟩

/-- C8: on a pin with a registered change callback, the value setter
invokes the callback exactly when the assigned value differs from the
stored one; assigning the current value never invokes it. -/
theorem c8_no_redundant_callback (p : Pin) (v : ℚ) (hcb : p.hasCallback = true) :
    ((set_value p v).2 = true ↔ p.value ≠ v) ∧
    (v = p.value → (set_value p v).2 = false) := by
  constructor
  · simp [set_value, hcb]
  · intro hv
    simp [set_value, hcb, hv]

/-- C8 (witness): assigning 0 to a callback-carrying pin whose value is
already 0 does not invoke the callback. -/
theorem c8_witness :
    ((set_value pinWithCallback 0).2 = true ↔ pinWithCallback.value ≠ 0) ∧
    ((0 : ℚ) = pinWithCallback.value → (set_value pinWithCallback 0).2 = false) :=
  c8_no_redundant_callback pinWithCallback 0 rfl

/-- C10: on a pin lacking the digital-output capability but advertising
the analog-output capability, `digital_write(value)` does not raise:
it performs `analog_write(1)`, discarding the requested value; the
`CapabilityNotAvailable` error is raised only when both capabilities are
absent. -/
theorem c10_digital_write_analog_fallback (p : Pin) (v : Bool)
    (hd : p.capabilities.lookup CAPABILITY_DIGITAL_OUTPUT = none) :
    ((p.capabilities.lookup CAPABILITY_ANALOG_OUTPUT).isSome = true →
      digital_write p v = analog_write p 1 ∧ (digital_write p v).err = none) ∧
    (p.capabilities.lookup CAPABILITY_ANALOG_OUTPUT = none →
      digital_write p v = { err := some .capabilityNotAvailable, pin := p, sent := [] }) := by
  constructor
  · intro ha
    have heq : digital_write p v = analog_write p 1 := by
      rw [digital_write]
      simp only [hd, Option.isSome_none, Bool.false_eq_true, if_false, ha, if_true]
    refine ⟨heq, ?_⟩
    obtain ⟨res, hres⟩ := Option.isSome_iff_exists.mp ha
    have hpwm : p.capabilities.lookup PWM = some res := hres
    rw [heq, analog_write]
    simp only [hpwm, hres, Option.isSome_some, if_true]
  · intro ha
    rw [digital_write]
    simp only [hd, ha, Option.isSome_none, Bool.false_eq_true, if_false]

/-- C10 (witness): on the PWM-only pin `digital_write true` falls back to
`analog_write 1` and raises nothing; on the capability-less pin it raises
`CapabilityNotAvailable`. -/
theorem c10_witness :
    (digital_write pinNoDigitalOut true = analog_write pinNoDigitalOut 1 ∧
      (digital_write pinNoDigitalOut true).err = none) ∧
    digital_write pinNoOutputs true =
      { err := some .capabilityNotAvailable, pin := pinNoOutputs, sent := [] } :=
  ⟨(c10_digital_write_analog_fallback pinNoDigitalOut true rfl).1 rfl,
   (c10_digital_write_analog_fallback pinNoOutputs true rfl).2 rfl⟩

/-- C4: evaluating the handshake handlers at the spec's negotiation
scenario (two capability lists, mapping bytes `[sentinel, 0x00]`) shows
the constructor-argument transposition: the created pins carry the
captured capability list in their `id` field and the pin-kind tag in
their `capabilities` field, instead of a numeric id and the capability
list as the claim (and `Pin.__init__`'s own annotations) require. -/
theorem c4_constructor_argument_transposition :
    handle_capability_response [] [0, 1, 0x7F, 2, 8, 0x7F] = [[0, 1], [2, 8]] ∧
    handle_analog_mapping_response [[0, 1], [2, 8]] [0x7F, 0] =
      .ok ([{ id := PyVal.listV [2, 8], type := PyVal.intV 0,
              capabilities := PyVal.strV ANALOG, mode := none, value := 0 }],
           [{ id := PyVal.listV [0, 1], type := PyVal.intV 0,
              capabilities := PyVal.strV DIGITAL, mode := none, value := 0 }]) ∧
    PyVal.listV [0, 1] ≠ PyVal.intV 0 ∧
    PyVal.strV DIGITAL ≠ PyVal.listV [0, 1] :=
  ⟨rfl, rfl, by decide, by decide⟩

/-- C5: the spec's port fan-out scenario, against the spec-modelled update
(the `_update_digital` target of board.py's dispatch is not under src/):
a digital-port message for port 0 with mask `0b101` sets pins 0 and 2
true, pins 1 and 3-7 false, and leaves the output-mode pin 4 untouched. -/
theorem c5_port_fanout :
    handle_digital_message
        [inputPinAt 0 0, inputPinAt 1 1, inputPinAt 2 0, inputPinAt 3 1,
         outputPinAt 4 1, inputPinAt 5 1, inputPinAt 6 0, inputPinAt 7 1] 0 5 =
      [inputPinAt 0 1, inputPinAt 1 0, inputPinAt 2 1, inputPinAt 3 0,
       outputPinAt 4 1, inputPinAt 5 0, inputPinAt 6 0, inputPinAt 7 0] := by
  decide

/-- C9: with the revive policy, a disconnect followed by one successful
reconnect runs setup exactly once more, reaches ready exactly once more,
and leaves the handler registry (rebuilt from scratch by the re-run of
`super().__init__`) free of duplicate entries. -/
theorem c9_reconnect_exactly_once (s : BoardState) :
    (connection_lost true s).setupRuns = s.setupRuns + 1 ∧
    (connection_lost true s).readyCount = s.readyCount + 1 ∧
    (connection_lost true s).handlers.Nodup := by
  have hh : (connection_lost true s).handlers =
      [(SYSEX_STRING, 0), (PIN_STATE_RESPONSE, 1), (ANALOG_MESSAGE, 2), (DIGITAL_MESSAGE, 3),
       (SYSEX_FIRMWARE_INFO, 4 + s.nextWrapperId),
       (CAPABILITY_RESPONSE, 4 + s.nextWrapperId + 1),
       (ANALOG_MAPPING_RESPONSE, 4 + s.nextWrapperId + 2)] := by
    simp [connection_lost, runSetup, add_command_handler, SYSEX_STRING, PIN_STATE_RESPONSE,
      ANALOG_MESSAGE, DIGITAL_MESSAGE, SYSEX_FIRMWARE_INFO, CAPABILITY_RESPONSE,
      ANALOG_MAPPING_RESPONSE]
  refine ⟨by simp [connection_lost, runSetup], by simp [connection_lost, runSetup], ?_⟩
  rw [hh]
  refine List.Nodup.of_map Prod.fst ?_
  show List.Nodup [SYSEX_STRING, PIN_STATE_RESPONSE, ANALOG_MESSAGE, DIGITAL_MESSAGE,
    SYSEX_FIRMWARE_INFO, CAPABILITY_RESPONSE, ANALOG_MAPPING_RESPONSE]
  decide

end AsyncFirmata
